import Mathlib

set_option maxRecDepth 100000

/-!
# Verification of the Gikou CLI module (`src/cli.cc`)

This file gives a shallow embedding of the code in `src/cli.cc` —
the quiet-move universe enumerator `ComputeAllPossibleQuietMoves`, the
player-rating update loop of `ComputePlayerRatings`, and the command
dispatcher `Cli::ExecuteCommand` — together with spec-derived models of
the engine primitives (`Bitboard`, attack tables, `Move`, and the 1-ply
and 3-ply mate provers) whose sources are not part of this tree.
-/

/-- Modelled from the spec: the two player colors of the engine
(`Color`, values `kBlack` and `kWhite`). -/
inductive Color where
  | black
  | white
deriving DecidableEq, Repr

/-- Modelled from the spec: the piece types, ranging over pawn, lance,
knight, silver, gold, bishop, rook, king, and the promoted forms. -/
inductive PieceType where
  | kPawn
  | kLance
  | kKnight
  | kSilver
  | kGold
  | kBishop
  | kRook
  | kKing
  | kPPawn
  | kPLance
  | kPKnight
  | kPSilver
  | kHorse
  | kDragon
deriving DecidableEq, Repr

/-- Modelled from the spec: a `Piece` is a (color × type) pair. -/
abbrev Piece := Color × PieceType

/-- Modelled from the spec: a `Square` is one of the 81 cells of the
9×9 board. -/
abbrev Square := Fin 81

/-- Modelled from the spec: the absolute rank (1..9) of a square;
rank 1 is the rank farthest from Black (White's home side). -/
def rankOf (sq : Square) : Nat := sq.val % 9 + 1

/-- Modelled from the spec: the rank of a square as seen from color
`c`'s side, so that relative rank 1 is the rank farthest from `c`. -/
def relativeRank (c : Color) (sq : Square) : Nat :=
  match c with
  | .black => rankOf sq
  | .white => 10 - rankOf sq

/-- Modelled from the spec: `Square::is_promotion_zone_of(Color)` — the
promotion zone of a color is the three ranks nearest the opponent's
side, i.e. relative ranks 1 to 3. -/
def is_promotion_zone_of (sq : Square) (c : Color) : Bool :=
  decide (relativeRank c sq ≤ 3)

/-- Modelled from the spec: `rank_bb<lo, hi>(Color)` — the set of
squares whose rank, seen from the given color's side, lies between
`lo` and `hi` inclusive (here as a membership predicate). -/
def rank_bb (lo hi : Nat) (c : Color) (sq : Square) : Bool :=
  decide (lo ≤ relativeRank c sq) && decide (relativeRank c sq ≤ hi)

/-- Modelled from the spec: `Bitboard::board_bb()` — all 81 squares of
the board, here as the canonical duplicate-free traversal order of the
bitboard's set bits. -/
def boardSquares : List Square := List.finRange 81

/-- The 14 piece types in declaration order. -/
def allPieceTypes : List PieceType :=
  [.kPawn, .kLance, .kKnight, .kSilver, .kGold, .kBishop, .kRook, .kKing,
   .kPPawn, .kPLance, .kPKnight, .kPSilver, .kHorse, .kDragon]

/-- Modelled from the spec: `Piece::all_pieces()` — every valid
(color × type) pair, each exactly once. -/
def allPieces : List Piece :=
  [Color.black, Color.white].flatMap (fun c => allPieceTypes.map (fun pt => (c, pt)))

/-- Modelled from the spec: `Piece::is_droppable()` — whether a piece
type may be dropped from hand: exactly the seven unpromoted non-king
types, since captured pieces revert to their basic form in hand. -/
def is_droppable (pt : PieceType) : Bool :=
  match pt with
  | .kPawn | .kLance | .kKnight | .kSilver | .kGold | .kBishop | .kRook => true
  | _ => false

/-- Modelled from the spec: a `Move` as used by the enumerator — a
tagged variant of a board relocation (piece, origin, destination,
promote flag) or a drop from hand (piece, destination). -/
inductive QMove where
  | board (c : Color) (pt : PieceType) (fromSq toSq : Square) (promote : Bool)
  | drop (c : Color) (pt : PieceType) (toSq : Square)
deriving DecidableEq, Repr

/-- Numeric code of a color (used by the canonical move encoding). -/
def colorCode : Color → Nat
  | .black => 0
  | .white => 1

/-- Numeric code of a piece type (used by the canonical move encoding). -/
def ptCode : PieceType → Nat
  | .kPawn => 0
  | .kLance => 1
  | .kKnight => 2
  | .kSilver => 3
  | .kGold => 4
  | .kBishop => 5
  | .kRook => 6
  | .kKing => 7
  | .kPPawn => 8
  | .kPLance => 9
  | .kPKnight => 10
  | .kPSilver => 11
  | .kHorse => 12
  | .kDragon => 13

/-- Modelled from the spec: `Move::ToUint32()` — the canonical integer
encoding of a move. The spec leaves the exact packing free and only
requires that it induce a strict total order on moves (injectivity);
this packing stores destination, origin slot (0 for drops, square+1
for board moves), piece type, promote flag and color in disjoint
positional fields, and its values fit well below `2^32`. -/
def QMove.toUint32 : QMove → Nat
  | .board c pt f t pr =>
      (((colorCode c * 2 + (if pr then 1 else 0)) * 16 + ptCode pt) * 82 + (f.val + 1)) * 81
        + t.val
  | .drop c pt t =>
      (((colorCode c * 2 + 0) * 16 + ptCode pt) * 82 + 0) * 81 + t.val

/-- Modelled from the spec: the maximal ("ignoring occupancy") attack
table `max_attacks_bb` — for each piece and origin square, the squares
reachable by that piece from there. The enumerator only reads this
table, so the development is parametrized by it. -/
abbrev AttackTable := Piece → Square → List Square

/-- Step 1 of `ComputeAllPossibleQuietMoves` (src/cli.cc): the
non-promoting board moves. For each piece, the origin set starts from
`board_bb` and is restricted for bishops and rooks to relative ranks
4..9; the destination set starts from `board_bb` and is restricted by
piece type (pawn: ranks 4..9, lance and knight: ranks 3..9, bishop and
rook: ranks 4..9); destinations are the maximal attacks intersected
with that target set. -/
def quietNonPromotionMoves (max_attacks_bb : AttackTable) : List QMove :=
  allPieces.flatMap (fun piece =>
    (boardSquares.filter (fun f =>
        match piece.2 with
        | .kBishop => rank_bb 4 9 piece.1 f
        | .kRook => rank_bb 4 9 piece.1 f
        | _ => true)).flatMap (fun f =>
      ((max_attacks_bb piece f).filter (fun t =>
          match piece.2 with
          | .kPawn => rank_bb 4 9 piece.1 t
          | .kLance => rank_bb 3 9 piece.1 t
          | .kKnight => rank_bb 3 9 piece.1 t
          | .kBishop => rank_bb 4 9 piece.1 t
          | .kRook => rank_bb 4 9 piece.1 t
          | _ => true)).map
        (fun t => QMove.board piece.1 piece.2 f t false)))

/-- Step 2 of `ComputeAllPossibleQuietMoves` (src/cli.cc): the silver
promotions — for each color and origin, every maximal silver attack
whose destination or origin lies in the mover's promotion zone, with
the promote flag set. -/
def silverPromotionMoves (max_attacks_bb : AttackTable) : List QMove :=
  [Color.black, Color.white].flatMap (fun c =>
    boardSquares.flatMap (fun f =>
      ((max_attacks_bb (c, PieceType.kSilver) f).filter (fun t =>
          is_promotion_zone_of t c || is_promotion_zone_of f c)).map
        (fun t => QMove.board c PieceType.kSilver f t true)))

/-- Step 3 of `ComputeAllPossibleQuietMoves` (src/cli.cc): the drops —
for each droppable piece, every board square, restricted for pawns and
lances to relative ranks 2..9 and for knights to relative ranks 3..9. -/
def dropQuietMoves : List QMove :=
  allPieces.flatMap (fun piece =>
    if is_droppable piece.2 then
      (boardSquares.filter (fun t =>
          match piece.2 with
          | .kPawn => rank_bb 2 9 piece.1 t
          | .kLance => rank_bb 2 9 piece.1 t
          | .kKnight => rank_bb 3 9 piece.1 t
          | _ => true)).map
        (fun t => QMove.drop piece.1 piece.2 t)
    else [])

/-- The `moves` vector built by `ComputeAllPossibleQuietMoves`
(src/cli.cc) before encoding: steps 1, 2 and 3 in program order. -/
def quietMoves (max_attacks_bb : AttackTable) : List QMove :=
  quietNonPromotionMoves max_attacks_bb ++ silverPromotionMoves max_attacks_bb
    ++ dropQuietMoves

/-- `ComputeAllPossibleQuietMoves` (src/cli.cc): the catalogue of moves
encoded through `Move::ToUint32` and sorted ascending as integers,
which is the sequence the function prints. -/
def ComputeAllPossibleQuietMoves (max_attacks_bb : AttackTable) : List Nat :=
  List.insertionSort (· ≤ ·) ((quietMoves max_attacks_bb).map QMove.toUint32)

/-- Modelled from the spec: `IsMateInOnePly` (mate1ply, not in this
tree) — it succeeds iff some checking move exists after which the
opponent has zero legal evasions, returning the first such move and
`none` (not an error) otherwise. The position/move representation,
legal-move and evasion enumeration, check detection and move
application are the abstract parameters. -/
def IsMateInOnePly {Pos M : Type} (legalMoves legalEvasions : Pos → List M)
    (givesCheck : Pos → M → Bool) (doMove : Pos → M → Pos) (pos : Pos) : Option M :=
  ((legalMoves pos).filter (fun m => givesCheck pos m)).find?
    (fun m => (legalEvasions (doMove pos m)).isEmpty)

/-- Modelled from the spec: `IsMateInThreePlies` (mate3, not in this
tree) — it succeeds iff there exists a first checking move such that,
for every legal opponent reply (full legal-move enumeration),
`IsMateInOnePly` succeeds on the resulting position; it returns the
first surviving candidate. -/
def IsMateInThreePlies {Pos M : Type} (legalMoves legalEvasions : Pos → List M)
    (givesCheck : Pos → M → Bool) (doMove : Pos → M → Pos) (pos : Pos) : Option M :=
  ((legalMoves pos).filter (fun m => givesCheck pos m)).find?
    (fun m => (legalMoves (doMove pos m)).all
      (fun r => (IsMateInOnePly legalMoves legalEvasions givesCheck doMove
        (doMove (doMove pos m) r)).isSome))

/-- A tiny concrete game used to witness the mate-search theorems:
positions are counters, one move `0` is available below 3. -/
def toyLegalMoves (p : Nat) : List Nat := if p ≤ 2 then [0] else []

/-- In the toy game every move gives check. -/
def toyGivesCheck (_p _m : Nat) : Bool := true

/-- In the toy game a move just bumps the counter. -/
def toyDoMove (p _m : Nat) : Nat := p + 1

/-- The rating delta of step 4 of `ComputePlayerRatings` (src/cli.cc):
`delta = 16 + (loser_rating - winner_rating) / 25` with C truncating
integer division, then clamped by `std::max(1, std::min(delta, 31))`. -/
def ratingDelta (winner_rating loser_rating : Int) : Int :=
  max 1 (min (16 + Int.tdiv (loser_rating - winner_rating) 25) 31)

/-- The per-game body of the rating loop in `ComputePlayerRatings`
(src/cli.cc): the winner's entry is increased by the delta, then the
loser's entry is decreased by the same delta (sequential map updates,
so the degenerate winner = loser case cancels exactly as in the code). -/
def applyGameUpdate (ratings : String → Int) (winner loser : String) : String → Int :=
  let delta := ratingDelta (ratings winner) (ratings loser)
  let r1 : String → Int := fun p => if p = winner then ratings p + delta else ratings p
  fun p => if p = loser then r1 p - delta else r1 p

/-- Modelled from the spec: C `atoi` as used by the dispatcher for the
optional numeric argument — skip leading whitespace, optional sign,
then the longest run of leading digits, `0` if there are none. -/
def atoiDigits : List Char → Nat → Nat
  | [], acc => acc
  | c :: cs, acc => if c.isDigit then atoiDigits cs (acc * 10 + (c.toNat - 48)) else acc

/-- Modelled from the spec: C `atoi`, entry point. -/
def atoi (s : String) : Int :=
  let cs := s.data.dropWhile (fun c => c = ' ' || c = '\t' || c = '\n' || c = '\r')
  match cs with
  | '-' :: rest => -(atoiDigits rest 0 : Int)
  | '+' :: rest => (atoiDigits rest 0 : Int)
  | _ => (atoiDigits cs 0 : Int)

/-- The observable effect of one `Cli::ExecuteCommand` call: which
message is printed and/or which worker function is invoked with which
arguments. `noCommand` and `noSuchCommand` print their diagnostic and
invoke no worker. -/
inductive CliAction where
  | noCommand
  | benchSearch
  | benchMoveGen (numCalls : Int)
  | benchMate (numCalls ply : Int)
  | cluster
  | computeAllQuiets
  | consultation
  | createBook (outputDirName : String)
  | dbStats (eventName : Option String)
  | generateGames
  | generatePositions
  | generatePvs
  | learnEvaluationParameters (useRootstrap useLogisticRegression : Bool)
  | learnProgress
  | learnProbability
  | computeRatings
  | noSuchCommand (command : String)
deriving DecidableEq, Repr

/-- `Cli::ExecuteCommand` (src/cli.cc): dispatch on `argv[1]`; with
fewer than two arguments print "CLI: No command." and return, and on
an unknown command print "CLI: No such command." plus the command. -/
def Cli.ExecuteCommand (argv : List String) : CliAction :=
  if argv.length < 2 then .noCommand
  else
    if argv.getD 1 "" = "--bench" then .benchSearch
    else if argv.getD 1 "" = "--bench-movegen" then
      .benchMoveGen (if 3 ≤ argv.length then atoi (argv.getD 2 "") else 1)
    else if argv.getD 1 "" = "--bench-mate1" then
      .benchMate (if 3 ≤ argv.length then atoi (argv.getD 2 "") else 1) 1
    else if argv.getD 1 "" = "--bench-mate3" then
      .benchMate (if 3 ≤ argv.length then atoi (argv.getD 2 "") else 1) 3
    else if argv.getD 1 "" = "--cluster" then .cluster
    else if argv.getD 1 "" = "--compute-all-quiets" then .computeAllQuiets
    else if argv.getD 1 "" = "--consultation" then .consultation
    else if argv.getD 1 "" = "--create-book" then
      .createBook (if 3 ≤ argv.length then argv.getD 2 "" else "books")
    else if argv.getD 1 "" = "--db-stats" then
      .dbStats (if 3 ≤ argv.length then some (argv.getD 2 "") else none)
    else if argv.getD 1 "" = "--generate-games" then .generateGames
    else if argv.getD 1 "" = "--generate-positions" then .generatePositions
    else if argv.getD 1 "" = "--generate-pvs" then .generatePvs
    else if argv.getD 1 "" = "--learn" then .learnEvaluationParameters false false
    else if argv.getD 1 "" = "--learn-with-rootstrap" then .learnEvaluationParameters true false
    else if argv.getD 1 "" = "--learn-with-regression" then .learnEvaluationParameters true true
    else if argv.getD 1 "" = "--learn-progress" then .learnProgress
    else if argv.getD 1 "" = "--learn-probability" then .learnProbability
    else if argv.getD 1 "" = "--compute-ratings" then .computeRatings
    else .noSuchCommand (argv.getD 1 "")

/-- The command strings `Cli::ExecuteCommand` recognizes. -/
def knownCommands : List String :=
  ["--bench", "--bench-movegen", "--bench-mate1", "--bench-mate3", "--cluster",
   "--compute-all-quiets", "--consultation", "--create-book", "--db-stats",
   "--generate-games", "--generate-positions", "--generate-pvs", "--learn",
   "--learn-with-rootstrap", "--learn-with-regression", "--learn-progress",
   "--learn-probability", "--compute-ratings"]

/-- The assertion at the entry of `BenchmarkMateSearch` (src/cli.cc):
`assert(ply == 1 || ply == 3)`. -/
def benchmarkMateSearchAssert (ply : Int) : Bool :=
  ply == 1 || ply == 3

/-- An attack table with no reachable squares, used to instantiate the
table-parametric theorems on a concrete input. -/
def emptyAttackTable : AttackTable := fun _ _ => []

/-- An attack table reaching exactly square 40 from everywhere, used to
instantiate the table-parametric theorems on a concrete input. -/
def singletonAttackTable : AttackTable := fun _ _ => [(40 : Fin 81)]

/-- Claim C5: the quiet-move enumeration is deterministic — it takes no
input beyond the immutable maximal attack tables, so two runs over the
same tables produce identical sorted output sequences, element for
element. -/
theorem computeAllQuiets_deterministic (a1 a2 : AttackTable)
    (h : ∀ p f, a1 p f = a2 p f) :
    ∀ i : Nat, (ComputeAllPossibleQuietMoves a1)[i]? = (ComputeAllPossibleQuietMoves a2)[i]? := by
  have heq : a1 = a2 := funext fun p => funext fun f => h p f
  subst heq
  intro i
  rfl

/-- Witness for C5 at a concrete attack table and index. -/
theorem computeAllQuiets_deterministic_witness :
    (ComputeAllPossibleQuietMoves emptyAttackTable)[0]? =
      (ComputeAllPossibleQuietMoves emptyAttackTable)[0]? :=
  computeAllQuiets_deterministic emptyAttackTable emptyAttackTable (fun _ _ => rfl) 0

/-- Claim C6: if the 3-ply prover succeeds with first move `m`, then
for every legal opponent reply `r` to the position after `m`, the
1-ply prover succeeds on the position after `m` and `r`. -/
theorem mateInThree_implies_mateInOne_after_reply {Pos M : Type}
    (legalMoves legalEvasions : Pos → List M) (givesCheck : Pos → M → Bool)
    (doMove : Pos → M → Pos) (pos : Pos) (m : M)
    (h : IsMateInThreePlies legalMoves legalEvasions givesCheck doMove pos = some m) :
    ∀ r ∈ legalMoves (doMove pos m),
      (IsMateInOnePly legalMoves legalEvasions givesCheck doMove
        (doMove (doMove pos m) r)).isSome = true := by
  intro r hr
  unfold IsMateInThreePlies at h
  have hp := List.find?_some h
  rw [List.all_eq_true] at hp
  exact hp r hr

/-- Witness for C6 on the toy game: mate in three is found at position
0 and mate in one holds after the only reply. -/
theorem mateInThree_implies_mateInOne_after_reply_witness :
    IsMateInThreePlies toyLegalMoves toyLegalMoves toyGivesCheck toyDoMove 0 = some 0 ∧
    (0 ∈ toyLegalMoves (toyDoMove 0 0) ∧
      (IsMateInOnePly toyLegalMoves toyLegalMoves toyGivesCheck toyDoMove
        (toyDoMove (toyDoMove 0 0) 0)).isSome = true) :=
  ⟨by decide, by decide,
    mateInThree_implies_mateInOne_after_reply toyLegalMoves toyLegalMoves toyGivesCheck
      toyDoMove 0 0 (by decide) 0 (by decide)⟩

/-- Claim C7: the 1-ply prover returns a move iff there exists a legal
checking move after which the opponent has zero legal evasions; in the
absence of such a move its result is the `none` value, not an error. -/
theorem mateInOne_iff_checking_move_no_evasions {Pos M : Type}
    (legalMoves legalEvasions : Pos → List M) (givesCheck : Pos → M → Bool)
    (doMove : Pos → M → Pos) (pos : Pos) :
    (IsMateInOnePly legalMoves legalEvasions givesCheck doMove pos).isSome = true ↔
      ∃ m ∈ legalMoves pos, givesCheck pos m = true ∧ legalEvasions (doMove pos m) = [] := by
  unfold IsMateInOnePly
  rw [List.find?_isSome]
  constructor
  · rintro ⟨m, hm, hp⟩
    rw [List.mem_filter] at hm
    exact ⟨m, hm.1, hm.2, List.isEmpty_iff.mp hp⟩
  · rintro ⟨m, hm, hc, he⟩
    exact ⟨m, List.mem_filter.mpr ⟨hm, hc⟩, by simp [he]⟩

/-- Claim C8: for every non-draw game processed by the rating loop of
`ComputePlayerRatings` with distinct winner and loser, the applied
delta is clamped to `[1, 31]`, the winner gains exactly that delta,
the loser loses exactly that delta, and the sum of the two ratings is
unchanged. -/
theorem computePlayerRatings_update_invariants (R : String → Int) (w l : String)
    (hne : w ≠ l) :
    (1 ≤ ratingDelta (R w) (R l) ∧ ratingDelta (R w) (R l) ≤ 31) ∧
    applyGameUpdate R w l w = R w + ratingDelta (R w) (R l) ∧
    applyGameUpdate R w l l = R l - ratingDelta (R w) (R l) ∧
    R w < applyGameUpdate R w l w ∧
    applyGameUpdate R w l l < R l ∧
    applyGameUpdate R w l w + applyGameUpdate R w l l = R w + R l := by
  have hd : 1 ≤ ratingDelta (R w) (R l) ∧ ratingDelta (R w) (R l) ≤ 31 := by
    unfold ratingDelta
    generalize 16 + Int.tdiv (R l - R w) 25 = x
    exact ⟨le_max_left 1 _, max_le (by norm_num) (min_le_right x 31)⟩
  have hw : applyGameUpdate R w l w = R w + ratingDelta (R w) (R l) := by
    unfold applyGameUpdate
    simp [hne]
  have hl : applyGameUpdate R w l l = R l - ratingDelta (R w) (R l) := by
    unfold applyGameUpdate
    simp [hne.symm]
  refine ⟨hd, hw, hl, ?_, ?_, ?_⟩ <;> omega

/-- Witness for C8 with two concrete players at the initial rating. -/
theorem computePlayerRatings_update_invariants_witness :
    applyGameUpdate (fun _ => 1500) "A" "B" "A" = 1500 + ratingDelta 1500 1500 ∧
    applyGameUpdate (fun _ => 1500) "A" "B" "B" = 1500 - ratingDelta 1500 1500 := by
  have h := computePlayerRatings_update_invariants (fun _ => 1500) "A" "B" (by decide)
  exact ⟨h.2.1, h.2.2.1⟩

/-- Claim C9: `Cli::ExecuteCommand` with fewer than two arguments
reports "CLI: No command." and invokes no worker, and with an
unrecognized command it reports "CLI: No such command." plus the
command and likewise invokes nothing else. -/
theorem executeCommand_rejects_bad_input (argv : List String) :
    (argv.length < 2 → Cli.ExecuteCommand argv = .noCommand) ∧
    (2 ≤ argv.length → argv.getD 1 "" ∉ knownCommands →
      Cli.ExecuteCommand argv = .noSuchCommand (argv.getD 1 "")) := by
  constructor
  · intro h
    unfold Cli.ExecuteCommand
    rw [if_pos h]
  · intro hlen hnot
    simp only [knownCommands, List.mem_cons, List.not_mem_nil, or_false, not_or] at hnot
    obtain ⟨h1, h2, h3, h4, h5, h6, h7, h8, h9, h10, h11, h12, h13, h14, h15, h16, h17,
      h18⟩ := hnot
    simp only [Cli.ExecuteCommand, if_neg (show ¬argv.length < 2 by omega), if_neg h1,
      if_neg h2, if_neg h3, if_neg h4, if_neg h5, if_neg h6, if_neg h7, if_neg h8, if_neg h9,
      if_neg h10, if_neg h11, if_neg h12, if_neg h13, if_neg h14, if_neg h15, if_neg h16,
      if_neg h17, if_neg h18]

/-- Witness for C9: the empty argument vector and an unrecognized
command. -/
theorem executeCommand_rejects_bad_input_witness :
    Cli.ExecuteCommand [] = .noCommand ∧
    Cli.ExecuteCommand ["gikou", "--frobnicate"] = .noSuchCommand "--frobnicate" :=
  ⟨(executeCommand_rejects_bad_input []).1 (by decide),
   (executeCommand_rejects_bad_input ["gikou", "--frobnicate"]).2 (by decide) (by decide)⟩

/-- Claim C10: every reachable call of `BenchmarkMateSearch` issued by
`Cli::ExecuteCommand` passes a ply of 1 or 3, so the entry assertion
`ply == 1 || ply == 3` holds on every reachable call. -/
theorem executeCommand_benchMate_ply_assert (argv : List String) (n p : Int)
    (h : Cli.ExecuteCommand argv = .benchMate n p) :
    benchmarkMateSearchAssert p = true := by
  unfold Cli.ExecuteCommand at h
  by_cases h0 : argv.length < 2
  · rw [if_pos h0] at h; exact CliAction.noConfusion h
  rw [if_neg h0] at h
  by_cases h1 : argv.getD 1 "" = "--bench"
  · rw [if_pos h1] at h; exact CliAction.noConfusion h
  rw [if_neg h1] at h
  by_cases h2 : argv.getD 1 "" = "--bench-movegen"
  · rw [if_pos h2] at h; exact CliAction.noConfusion h
  rw [if_neg h2] at h
  by_cases h3 : argv.getD 1 "" = "--bench-mate1"
  · rw [if_pos h3] at h; injection h with hn hp; subst hp; decide
  rw [if_neg h3] at h
  by_cases h4 : argv.getD 1 "" = "--bench-mate3"
  · rw [if_pos h4] at h; injection h with hn hp; subst hp; decide
  rw [if_neg h4] at h
  by_cases h5 : argv.getD 1 "" = "--cluster"
  · rw [if_pos h5] at h; exact CliAction.noConfusion h
  rw [if_neg h5] at h
  by_cases h6 : argv.getD 1 "" = "--compute-all-quiets"
  · rw [if_pos h6] at h; exact CliAction.noConfusion h
  rw [if_neg h6] at h
  by_cases h7 : argv.getD 1 "" = "--consultation"
  · rw [if_pos h7] at h; exact CliAction.noConfusion h
  rw [if_neg h7] at h
  by_cases h8 : argv.getD 1 "" = "--create-book"
  · rw [if_pos h8] at h; exact CliAction.noConfusion h
  rw [if_neg h8] at h
  by_cases h9 : argv.getD 1 "" = "--db-stats"
  · rw [if_pos h9] at h; exact CliAction.noConfusion h
  rw [if_neg h9] at h
  by_cases h10 : argv.getD 1 "" = "--generate-games"
  · rw [if_pos h10] at h; exact CliAction.noConfusion h
  rw [if_neg h10] at h
  by_cases h11 : argv.getD 1 "" = "--generate-positions"
  · rw [if_pos h11] at h; exact CliAction.noConfusion h
  rw [if_neg h11] at h
  by_cases h12 : argv.getD 1 "" = "--generate-pvs"
  · rw [if_pos h12] at h; exact CliAction.noConfusion h
  rw [if_neg h12] at h
  by_cases h13 : argv.getD 1 "" = "--learn"
  · rw [if_pos h13] at h; exact CliAction.noConfusion h
  rw [if_neg h13] at h
  by_cases h14 : argv.getD 1 "" = "--learn-with-rootstrap"
  · rw [if_pos h14] at h; exact CliAction.noConfusion h
  rw [if_neg h14] at h
  by_cases h15 : argv.getD 1 "" = "--learn-with-regression"
  · rw [if_pos h15] at h; exact CliAction.noConfusion h
  rw [if_neg h15] at h
  by_cases h16 : argv.getD 1 "" = "--learn-progress"
  · rw [if_pos h16] at h; exact CliAction.noConfusion h
  rw [if_neg h16] at h
  by_cases h17 : argv.getD 1 "" = "--learn-probability"
  · rw [if_pos h17] at h; exact CliAction.noConfusion h
  rw [if_neg h17] at h
  by_cases h18 : argv.getD 1 "" = "--compute-ratings"
  · rw [if_pos h18] at h; exact CliAction.noConfusion h
  rw [if_neg h18] at h
  exact CliAction.noConfusion h

/-- Witness for C10 on the `--bench-mate3` command. -/
theorem executeCommand_benchMate_ply_assert_witness :
    Cli.ExecuteCommand ["gikou", "--bench-mate3"] = .benchMate 1 3 ∧
    benchmarkMateSearchAssert 3 = true :=
  ⟨by decide,
   executeCommand_benchMate_ply_assert ["gikou", "--bench-mate3"] 1 3 (by decide)⟩

/-- A rank-4..9 square is outside the promotion zone. -/
lemma promo_false_of_rank4 {c : Color} {sq : Square} (h : rank_bb 4 9 c sq = true) :
    is_promotion_zone_of sq c = false := by
  simp only [rank_bb, Bool.and_eq_true, decide_eq_true_eq] at h
  simp only [is_promotion_zone_of, decide_eq_false_iff_not]
  omega

/-- Membership in a rank band yields the lower rank bound. -/
lemma rank_lower_bound {lo hi : Nat} {c : Color} {sq : Square}
    (h : rank_bb lo hi c sq = true) : lo ≤ relativeRank c sq := by
  simp only [rank_bb, Bool.and_eq_true, decide_eq_true_eq] at h
  exact h.1

/-- Every member of step 1 of the enumerator is a non-promoting board
move whose origin and destination satisfy the step's rank filters. -/
lemma quietNonPromotionMoves_shape {att : AttackTable} {m : QMove}
    (h : m ∈ quietNonPromotionMoves att) :
    ∃ c pt f t, m = QMove.board c pt f t false ∧
      ((pt = .kBishop ∨ pt = .kRook) → rank_bb 4 9 c f = true) ∧
      (pt = .kPawn → rank_bb 4 9 c t = true) ∧
      (pt = .kLance → rank_bb 3 9 c t = true) ∧
      (pt = .kKnight → rank_bb 3 9 c t = true) ∧
      ((pt = .kBishop ∨ pt = .kRook) → rank_bb 4 9 c t = true) := by
  simp only [quietNonPromotionMoves, List.mem_flatMap, List.mem_map, List.mem_filter] at h
  obtain ⟨piece, hpiece, f, ⟨hfb, hfcond⟩, t, ⟨htb, htcond⟩, heq⟩ := h
  refine ⟨piece.1, piece.2, f, t, heq.symm, ?_, ?_, ?_, ?_, ?_⟩
  · rintro (hpt | hpt) <;> rw [hpt] at hfcond <;> simpa using hfcond
  · intro hpt; rw [hpt] at htcond; simpa using htcond
  · intro hpt; rw [hpt] at htcond; simpa using htcond
  · intro hpt; rw [hpt] at htcond; simpa using htcond
  · rintro (hpt | hpt) <;> rw [hpt] at htcond <;> simpa using htcond

/-- Every member of step 2 of the enumerator is a promoting silver
board move whose destination or origin is in the promotion zone. -/
lemma silverPromotionMoves_shape {att : AttackTable} {m : QMove}
    (h : m ∈ silverPromotionMoves att) :
    ∃ c f t, m = QMove.board c .kSilver f t true ∧
      (is_promotion_zone_of t c || is_promotion_zone_of f c) = true := by
  simp only [silverPromotionMoves, List.mem_flatMap, List.mem_map, List.mem_filter,
    List.mem_cons, List.not_mem_nil, or_false] at h
  obtain ⟨c, _, f, _, t, ⟨htb, htcond⟩, heq⟩ := h
  exact ⟨c, f, t, heq.symm, htcond⟩

/-- Every member of step 3 of the enumerator is a drop of a droppable
piece whose destination satisfies the step's rank filters. -/
lemma dropQuietMoves_shape {m : QMove} (h : m ∈ dropQuietMoves) :
    ∃ c pt t, m = QMove.drop c pt t ∧ is_droppable pt = true ∧
      ((pt = .kPawn ∨ pt = .kLance) → rank_bb 2 9 c t = true) ∧
      (pt = .kKnight → rank_bb 3 9 c t = true) := by
  simp only [dropQuietMoves, List.mem_flatMap] at h
  obtain ⟨piece, hpiece, hm⟩ := h
  by_cases hd : is_droppable piece.2 = true
  · rw [if_pos hd] at hm
    simp only [List.mem_map, List.mem_filter] at hm
    obtain ⟨t, ⟨htb, htcond⟩, heq⟩ := hm
    refine ⟨piece.1, piece.2, t, heq.symm, hd, ?_, ?_⟩
    · rintro (hpt | hpt) <;> rw [hpt] at htcond <;> simpa using htcond
    · intro hpt; rw [hpt] at htcond; simpa using htcond
  · rw [if_neg hd] at hm
    exact absurd hm (List.not_mem_nil m)

/-- A drop of any droppable non-pawn/lance/knight piece to any square
is produced by step 3 of the enumerator. -/
lemma dropQuietMoves_complete (c : Color) (pt : PieceType) (t : Square)
    (hd : is_droppable pt = true) (hp : pt ≠ .kPawn) (hl : pt ≠ .kLance)
    (hk : pt ≠ .kKnight) : QMove.drop c pt t ∈ dropQuietMoves := by
  simp only [dropQuietMoves, List.mem_flatMap]
  refine ⟨(c, pt), ?_, ?_⟩
  · cases c <;> cases pt <;> decide
  · rw [if_pos hd]
    simp only [List.mem_map, List.mem_filter]
    refine ⟨t, ⟨by simp [boardSquares, List.mem_finRange], ?_⟩, rfl⟩
    cases pt <;> simp_all

/-- Claim C1: no member of the quiet-move catalogue is a categorically
dominated non-promotion — a non-promoting pawn move never ends inside
the mover's promotion zone, a non-promoting lance move never ends on
the mover's farthest or second-furthest rank, and a non-promoting
bishop or rook move has both its destination and its origin outside
the mover's promotion zone. -/
theorem computeAllQuiets_no_dominated_nonpromotion (att : AttackTable)
    (c : Color) (pt : PieceType) (f t : Square)
    (h : QMove.board c pt f t false ∈ quietMoves att) :
    (pt = .kPawn → is_promotion_zone_of t c = false) ∧
    (pt = .kLance → 3 ≤ relativeRank c t) ∧
    ((pt = .kBishop ∨ pt = .kRook) →
      is_promotion_zone_of t c = false ∧ is_promotion_zone_of f c = false) := by
  unfold quietMoves at h
  rcases List.mem_append.mp h with h' | h'
  · rcases List.mem_append.mp h' with h1 | h2
    · obtain ⟨c', pt', f', t', heq, hfrom, hpawn, hlance, _, hbr⟩ :=
        quietNonPromotionMoves_shape h1
      injection heq with hc hpt hf ht
      subst hc; subst hpt; subst hf; subst ht
      refine ⟨?_, ?_, ?_⟩
      · intro hpt; exact promo_false_of_rank4 (hpawn hpt)
      · intro hpt; exact rank_lower_bound (hlance hpt)
      · intro hpt;
        exact ⟨promo_false_of_rank4 (hbr hpt), promo_false_of_rank4 (hfrom hpt)⟩
    · obtain ⟨c', f', t', heq, _⟩ := silverPromotionMoves_shape h2
      exact absurd heq (by simp)
  · obtain ⟨c', pt', t', heq, _⟩ := dropQuietMoves_shape h'
    exact absurd heq (by simp)

/-- Witness for C1: a black pawn move from square 0 to square 40
(relative rank 5) is in the catalogue of the singleton attack table
and its destination is outside Black's promotion zone. -/
theorem computeAllQuiets_no_dominated_nonpromotion_witness :
    QMove.board Color.black PieceType.kPawn (0 : Fin 81) (40 : Fin 81) false ∈
      quietMoves singletonAttackTable ∧
    is_promotion_zone_of (40 : Fin 81) Color.black = false :=
  ⟨by decide,
   (computeAllQuiets_no_dominated_nonpromotion singletonAttackTable Color.black
      PieceType.kPawn (0 : Fin 81) (40 : Fin 81) (by decide)).1 rfl⟩

/-- Claim C2: every catalogue move with its promote flag set is a
silver board move whose origin or destination lies in the moving
color's promotion zone; no other piece type promotes in the
catalogue. -/
theorem computeAllQuiets_silver_only_promotions (att : AttackTable)
    (c : Color) (pt : PieceType) (f t : Square)
    (h : QMove.board c pt f t true ∈ quietMoves att) :
    pt = .kSilver ∧
      (is_promotion_zone_of t c = true ∨ is_promotion_zone_of f c = true) := by
  unfold quietMoves at h
  rcases List.mem_append.mp h with h' | h'
  · rcases List.mem_append.mp h' with h1 | h2
    · obtain ⟨c', pt', f', t', heq, _⟩ := quietNonPromotionMoves_shape h1
      exact absurd heq (by simp)
    · obtain ⟨c', f', t', heq, hcond⟩ := silverPromotionMoves_shape h2
      injection heq with hc hpt hf ht
      subst hc; subst hf; subst ht
      exact ⟨hpt.symm ▸ rfl, Bool.or_eq_true _ _ |>.mp hcond⟩
  · obtain ⟨c', pt', t', heq, _⟩ := dropQuietMoves_shape h'
    exact absurd heq (by simp)

/-- Witness for C2: the silver promotion from square 0 (Black's
promotion zone) to square 40 is in the catalogue of the singleton
attack table. -/
theorem computeAllQuiets_silver_only_promotions_witness :
    QMove.board Color.black PieceType.kSilver (0 : Fin 81) (40 : Fin 81) true ∈
      quietMoves singletonAttackTable ∧
    (is_promotion_zone_of (40 : Fin 81) Color.black = true ∨
      is_promotion_zone_of (0 : Fin 81) Color.black = true) :=
  ⟨by decide,
   (computeAllQuiets_silver_only_promotions singletonAttackTable Color.black
      PieceType.kSilver (0 : Fin 81) (40 : Fin 81) (by decide)).2⟩

/-- Claim C3: every drop in the catalogue is of a droppable piece type,
pawn and lance drops avoid the mover's farthest rank, knight drops
avoid the two farthest ranks, and every other droppable type is
dropped on all 81 squares. -/
theorem computeAllQuiets_drop_legality (att : AttackTable) :
    (∀ c pt t, QMove.drop c pt t ∈ quietMoves att →
      is_droppable pt = true ∧
      ((pt = .kPawn ∨ pt = .kLance) → 2 ≤ relativeRank c t) ∧
      (pt = .kKnight → 3 ≤ relativeRank c t)) ∧
    (∀ c pt t, is_droppable pt = true → pt ≠ .kPawn → pt ≠ .kLance →
      pt ≠ .kKnight → QMove.drop c pt t ∈ quietMoves att) := by
  constructor
  · intro c pt t h
    unfold quietMoves at h
    rcases List.mem_append.mp h with h' | h'
    · rcases List.mem_append.mp h' with h1 | h2
      · obtain ⟨c', pt', f', t', heq, _⟩ := quietNonPromotionMoves_shape h1
        exact absurd heq (by simp)
      · obtain ⟨c', f', t', heq, _⟩ := silverPromotionMoves_shape h2
        exact absurd heq (by simp)
    · obtain ⟨c', pt', t', heq, hd, hpl, hkn⟩ := dropQuietMoves_shape h'
      injection heq with hc hpt ht
      subst hc; subst hpt; subst ht
      exact ⟨hd, fun hpt => rank_lower_bound (hpl hpt),
        fun hpt => rank_lower_bound (hkn hpt)⟩
  · intro c pt t hd hp hl hk
    exact List.mem_append_right _ (dropQuietMoves_complete c pt t hd hp hl hk)

/-- Witness for C3: a black pawn drop on square 40 is in the catalogue
and respects the rank bound, and a black gold drop on square 0 is
always included. -/
theorem computeAllQuiets_drop_legality_witness :
    (QMove.drop Color.black PieceType.kPawn (40 : Fin 81) ∈
        quietMoves emptyAttackTable ∧
      2 ≤ relativeRank Color.black (40 : Fin 81)) ∧
    QMove.drop Color.black PieceType.kGold (0 : Fin 81) ∈ quietMoves emptyAttackTable :=
  ⟨⟨by decide,
    (((computeAllQuiets_drop_legality emptyAttackTable).1 Color.black PieceType.kPawn
        (40 : Fin 81) (by decide)).2.1 (Or.inl rfl))⟩,
   (computeAllQuiets_drop_legality emptyAttackTable).2 Color.black PieceType.kGold
     (0 : Fin 81) (by decide) (by decide) (by decide) (by decide)⟩

/-- The piece-type code is injective. -/
lemma ptCode_injective : ∀ a b : PieceType, ptCode a = ptCode b → a = b := by
  intro a b
  cases a <;> cases b <;> decide

/-- The color code is injective. -/
lemma colorCode_injective : ∀ a b : Color, colorCode a = colorCode b → a = b := by
  intro a b
  cases a <;> cases b <;> decide

/-- The piece-type code is below the field width of the encoding. -/
lemma ptCode_le : ∀ a : PieceType, ptCode a ≤ 15 := by
  intro a
  cases a <;> decide

/-- The color code is below the field width of the encoding. -/
lemma colorCode_le : ∀ a : Color, colorCode a ≤ 1 := by
  intro a
  cases a <;> decide

/-- Positional-field uniqueness for the move encoding: two encodings
agree only if all five fields agree, given the field bounds. -/
lemma encode_fields_eq {a1 b1 c1 d1 e1 a2 b2 c2 d2 e2 : Nat}
    (ha1 : a1 ≤ 1) (hb1 : b1 ≤ 1) (hc1 : c1 ≤ 15) (hd1 : d1 ≤ 81) (he1 : e1 ≤ 80)
    (ha2 : a2 ≤ 1) (hb2 : b2 ≤ 1) (hc2 : c2 ≤ 15) (hd2 : d2 ≤ 81) (he2 : e2 ≤ 80)
    (h : (((a1 * 2 + b1) * 16 + c1) * 82 + d1) * 81 + e1 =
         (((a2 * 2 + b2) * 16 + c2) * 82 + d2) * 81 + e2) :
    a1 = a2 ∧ b1 = b2 ∧ c1 = c2 ∧ d1 = d2 ∧ e1 = e2 := by
  omega

/-- The canonical move encoding is injective, as required by the
spec's strict total order on encodings. -/
lemma toUint32_injective : Function.Injective QMove.toUint32 := by
  intro m1 m2 h
  cases m1 with
  | board c1 pt1 f1 t1 pr1 =>
    cases m2 with
    | board c2 pt2 f2 t2 pr2 =>
      simp only [QMove.toUint32] at h
      obtain ⟨ha, hb, hc, hd, he⟩ := encode_fields_eq (colorCode_le c1)
        (by split <;> omega) (ptCode_le pt1) (by have := f1.isLt; omega)
        (by have := t1.isLt; omega) (colorCode_le c2) (by split <;> omega)
        (ptCode_le pt2) (by have := f2.isLt; omega) (by have := t2.isLt; omega) h
      have hceq : c1 = c2 := colorCode_injective c1 c2 ha
      have hpteq : pt1 = pt2 := ptCode_injective pt1 pt2 hc
      have hpreq : pr1 = pr2 := by cases pr1 <;> cases pr2 <;> simp_all
      have hfeq : f1 = f2 := Fin.ext (by omega)
      have hteq : t1 = t2 := Fin.ext (by omega)
      rw [hceq, hpteq, hpreq, hfeq, hteq]
    | drop c2 pt2 t2 =>
      simp only [QMove.toUint32] at h
      obtain ⟨_, _, _, hd, _⟩ := encode_fields_eq (colorCode_le c1)
        (by split <;> omega) (ptCode_le pt1) (by have := f1.isLt; omega)
        (by have := t1.isLt; omega) (colorCode_le c2) (by omega)
        (ptCode_le pt2) (by omega) (by have := t2.isLt; omega) h
      omega
  | drop c1 pt1 t1 =>
    cases m2 with
    | board c2 pt2 f2 t2 pr2 =>
      simp only [QMove.toUint32] at h
      obtain ⟨_, _, _, hd, _⟩ := encode_fields_eq (colorCode_le c1) (by omega)
        (ptCode_le pt1) (by omega) (by have := t1.isLt; omega) (colorCode_le c2)
        (by split <;> omega) (ptCode_le pt2) (by have := f2.isLt; omega)
        (by have := t2.isLt; omega) h
      omega
    | drop c2 pt2 t2 =>
      simp only [QMove.toUint32] at h
      obtain ⟨ha, _, hc, _, he⟩ := encode_fields_eq (colorCode_le c1) (by omega)
        (ptCode_le pt1) (by omega) (by have := t1.isLt; omega) (colorCode_le c2)
        (by omega) (ptCode_le pt2) (by omega) (by have := t2.isLt; omega) h
      rw [colorCode_injective c1 c2 ha, ptCode_injective pt1 pt2 hc,
        show t1 = t2 from Fin.ext (by omega)]

/-- The piece list contains no duplicates. -/
lemma allPieces_nodup : allPieces.Nodup := by decide

/-- Step 1 of the enumerator yields no duplicate move when the attack
sets are duplicate-free. -/
lemma quietNonPromotionMoves_nodup (att : AttackTable)
    (hatt : ∀ p f, (att p f).Nodup) : (quietNonPromotionMoves att).Nodup := by
  unfold quietNonPromotionMoves
  rw [List.nodup_flatMap]
  refine ⟨?_, ?_⟩
  · intro piece _
    rw [List.nodup_flatMap]
    refine ⟨?_, ?_⟩
    · intro f _
      refine List.Nodup.map ?_ (List.Nodup.filter _ (hatt piece f))
      intro t1 t2 hteq
      injection hteq
    · refine List.Pairwise.imp ?_ (List.Nodup.filter _ (List.nodup_finRange 81))
      intro f1 f2 hne m hm1 hm2
      simp only [List.mem_map, List.mem_filter] at hm1 hm2
      obtain ⟨t1, _, heq1⟩ := hm1
      obtain ⟨t2, _, heq2⟩ := hm2
      rw [← heq2] at heq1
      injection heq1 with h1 h2 hf h4 h5
      exact hne hf
  · refine List.Pairwise.imp ?_ allPieces_nodup
    intro p q hne m hm1 hm2
    simp only [List.mem_flatMap, List.mem_map, List.mem_filter] at hm1 hm2
    obtain ⟨f1, _, t1, _, heq1⟩ := hm1
    obtain ⟨f2, _, t2, _, heq2⟩ := hm2
    rw [← heq2] at heq1
    injection heq1 with hc hpt h3 h4 h5
    exact hne (Prod.ext hc hpt)

/-- Step 2 of the enumerator yields no duplicate move when the attack
sets are duplicate-free. -/
lemma silverPromotionMoves_nodup (att : AttackTable)
    (hatt : ∀ p f, (att p f).Nodup) : (silverPromotionMoves att).Nodup := by
  unfold silverPromotionMoves
  rw [List.nodup_flatMap]
  refine ⟨?_, ?_⟩
  · intro c _
    rw [List.nodup_flatMap]
    refine ⟨?_, ?_⟩
    · intro f _
      refine List.Nodup.map ?_ (List.Nodup.filter _ (hatt (c, PieceType.kSilver) f))
      intro t1 t2 hteq
      injection hteq
    · refine List.Pairwise.imp ?_ (List.nodup_finRange 81)
      intro f1 f2 hne m hm1 hm2
      simp only [List.mem_map, List.mem_filter] at hm1 hm2
      obtain ⟨t1, _, heq1⟩ := hm1
      obtain ⟨t2, _, heq2⟩ := hm2
      rw [← heq2] at heq1
      injection heq1 with h1 h2 hf h4 h5
      exact hne hf
  · refine List.Pairwise.imp ?_ (show ([Color.black, Color.white]).Nodup by decide)
    intro c1 c2 hne m hm1 hm2
    simp only [List.mem_flatMap, List.mem_map, List.mem_filter] at hm1 hm2
    obtain ⟨f1, _, t1, _, heq1⟩ := hm1
    obtain ⟨f2, _, t2, _, heq2⟩ := hm2
    rw [← heq2] at heq1
    injection heq1 with hc h2 h3 h4 h5
    exact hne hc

/-- Step 3 of the enumerator yields no duplicate move. -/
lemma dropQuietMoves_nodup : dropQuietMoves.Nodup := by
  unfold dropQuietMoves
  rw [List.nodup_flatMap]
  refine ⟨?_, ?_⟩
  · intro piece _
    by_cases hd : is_droppable piece.2 = true
    · rw [if_pos hd]
      refine List.Nodup.map ?_ (List.Nodup.filter _ (List.nodup_finRange 81))
      intro t1 t2 hteq
      injection hteq
    · rw [if_neg hd]
      exact List.nodup_nil
  · refine List.Pairwise.imp ?_ allPieces_nodup
    intro p q hne m hm1 hm2
    simp only [] at hm1 hm2
    by_cases hdp : is_droppable p.2 = true
    · rw [if_pos hdp] at hm1
      by_cases hdq : is_droppable q.2 = true
      · rw [if_pos hdq] at hm2
        simp only [List.mem_map, List.mem_filter] at hm1 hm2
        obtain ⟨t1, _, heq1⟩ := hm1
        obtain ⟨t2, _, heq2⟩ := hm2
        rw [← heq2] at heq1
        injection heq1 with hc hpt h3
        exact hne (Prod.ext hc hpt)
      · rw [if_neg hdq] at hm2
        exact List.not_mem_nil m hm2
    · rw [if_neg hdp] at hm1
      exact List.not_mem_nil m hm1

/-- The whole `moves` vector of the enumerator is duplicate-free when
the attack sets are. -/
lemma quietMoves_nodup (att : AttackTable) (hatt : ∀ p f, (att p f).Nodup) :
    (quietMoves att).Nodup := by
  unfold quietMoves
  refine List.Nodup.append
    (List.Nodup.append (quietNonPromotionMoves_nodup att hatt)
      (silverPromotionMoves_nodup att hatt) ?_)
    dropQuietMoves_nodup ?_
  · intro m hm1 hm2
    obtain ⟨c1, pt1, f1, t1, heq1, _⟩ := quietNonPromotionMoves_shape hm1
    obtain ⟨c2, f2, t2, heq2, _⟩ := silverPromotionMoves_shape hm2
    rw [heq1] at heq2
    injection heq2 with h1 h2 h3 h4 hpr
    exact Bool.noConfusion hpr
  · intro m hm1 hm2
    obtain ⟨c2, pt2, t2, heq2, _⟩ := dropQuietMoves_shape hm2
    rcases List.mem_append.mp hm1 with h1 | h1
    · obtain ⟨c1, pt1, f1, t1, heq1, _⟩ := quietNonPromotionMoves_shape h1
      rw [heq1] at heq2
      exact QMove.noConfusion heq2
    · obtain ⟨c1, f1, t1, heq1, _⟩ := silverPromotionMoves_shape h1
      rw [heq1] at heq2
      exact QMove.noConfusion heq2

/-- Claim C4: the output sequence of `ComputeAllPossibleQuietMoves` is
sorted in ascending order of the canonical integer encoding and
contains no duplicate encoding, provided the attack table holds sets
(no duplicate squares per entry). -/
theorem computeAllQuiets_sorted_nodup (att : AttackTable)
    (hatt : ∀ p f, (att p f).Nodup) :
    List.Sorted (· ≤ ·) (ComputeAllPossibleQuietMoves att) ∧
    (ComputeAllPossibleQuietMoves att).Nodup := by
  constructor
  · exact List.sorted_insertionSort (· ≤ ·) _
  · have hperm := List.perm_insertionSort (· ≤ ·) ((quietMoves att).map QMove.toUint32)
    exact hperm.nodup_iff.mpr
      (List.Nodup.map toUint32_injective (quietMoves_nodup att hatt))

/-- Witness for C4 at the empty attack table. -/
theorem computeAllQuiets_sorted_nodup_witness :
    (∀ p f, (emptyAttackTable p f).Nodup) ∧
    (List.Sorted (· ≤ ·) (ComputeAllPossibleQuietMoves emptyAttackTable) ∧
      (ComputeAllPossibleQuietMoves emptyAttackTable).Nodup) :=
  ⟨fun _ _ => List.nodup_nil,
   computeAllQuiets_sorted_nodup emptyAttackTable (fun _ _ => List.nodup_nil)⟩
